import Mathlib

/-!
# Shortify — verification of the URL-shortening core

Shallow embedding of `src/internal/handlers/urlGeneration.go` (the variant
with Redis cache and custom tokens): the SQLite-backed store of
`(id, short_url, original_url)` rows, the Base62 codec, the custom-token
validator, `GenerateShortURL`, `ResolveShortURL` and the thin HTTP handlers.
The SQLite table declares `id INTEGER PRIMARY KEY AUTOINCREMENT` and
`short_url TEXT NOT NULL UNIQUE`; inserts fail exactly when one of those
uniqueness constraints is violated, which the embedding makes explicit.
Machine `int64` ids are modelled as `Nat` (ids start at 1 and grow by one
per generated insert, far from overflow).
-/

namespace Shortify

/-- The 62-symbol alphabet of `encodeBase62`
(`charset` in `urlGeneration.go`). -/
def charset : String := "0123456789ABCDEFGHIJKLMNOPQRSTUVWXYZabcdefghijklmnopqrstuvwxyz"

/-- `charset[rem]`: the character the Go code picks for a remainder. -/
def base62Char (rem : Nat) : Char := charset.data.getD rem '?'

/-- The loop of `encodeBase62`: while `num > 0`, prepend `charset[num % 62]`
to `result` and divide `num` by 62. -/
def encLoop (num : Nat) (result : List Char) : List Char :=
  if h : 0 < num then
    encLoop (num / 62) (base62Char (num % 62) :: result)
  else
    result
termination_by num
decreasing_by exact Nat.div_lt_self h (by norm_num)

/-- `encodeBase62` from `urlGeneration.go`: converts a numeric ID into a
Base62 string, most-significant symbol first. -/
def encodeBase62 (num : Nat) : String := String.mk (encLoop num [])

/-- The valid-character set of `isValidCustomURL`: the Base62 alphabet
extended with `-` and `_` (`validChars` in the Go source). -/
def validChars : String := "0123456789ABCDEFGHIJKLMNOPQRSTUVWXYZabcdefghijklmnopqrstuvwxyz-_"

/-- `isValidCustomURL` from `urlGeneration.go`: true iff every character of
`customURL` occurs in `validChars` (the Go loop ranges over the string and
calls `strings.ContainsRune`, spelled `ConainsRune` in the source). -/
def isValidCustomURL (customURL : String) : Bool :=
  customURL.data.all (fun char => validChars.data.contains char)

/-- One row of the SQLite `urls` table:
`id INTEGER PRIMARY KEY AUTOINCREMENT, short_url TEXT NOT NULL UNIQUE,
original_url TEXT NOT NULL`. -/
structure Entry where
  id : Nat
  short_url : String
  original_url : String
deriving Repr, DecidableEq

/-- The durable store: the `urls` table rows in insertion order, plus the
`sqlite_sequence` counter that backs `AUTOINCREMENT`. -/
structure Store where
  rows : List Entry
  seq : Nat
deriving Repr, DecidableEq

/-- A freshly created table (`CREATE TABLE IF NOT EXISTS urls ...`). -/
def Store.empty : Store := ⟨[], 0⟩

/-- `SELECT COALESCE(MAX(id), 0)` over the table. -/
def maxId (us : Store) : Nat := us.rows.foldr (fun r m => max r.id m) 0

/-- `SELECT EXISTS(SELECT 1 FROM urls WHERE short_url = ?)`. -/
def tokenExists (us : Store) (t : String) : Bool :=
  us.rows.any (fun r => r.short_url == t)

/-- Whether a row with this primary-key `id` is present. -/
def idExists (us : Store) (i : Nat) : Bool := us.rows.any (fun r => r.id == i)

/-- `SELECT original_url FROM urls WHERE short_url = ?` (first matching row). -/
def storeLookup (us : Store) (t : String) : Option String :=
  (us.rows.find? (fun r => r.short_url == t)).map (fun r => r.original_url)

/-- The rowid SQLite `AUTOINCREMENT` assigns to an insert that omits `id`:
one more than the larger of the sequence counter and the largest id in the
table. -/
def nextAutoId (us : Store) : Nat := max us.seq (maxId us) + 1

/-- `INSERT INTO urls (short_url, original_url) VALUES (?, ?)` — the
custom-token insert; `id` is assigned by `AUTOINCREMENT`. -/
def insertCustomRow (us : Store) (t url : String) : Store :=
  ⟨us.rows ++ [⟨nextAutoId us, t, url⟩], nextAutoId us⟩

/-- `INSERT INTO urls (id, short_url, original_url) VALUES (?, ?, ?)` — the
generated-token insert with an explicit `id`; `AUTOINCREMENT` keeps its
sequence at least as large as any explicitly inserted id. -/
def insertGeneratedRow (us : Store) (i : Nat) (t url : String) : Store :=
  ⟨us.rows ++ [⟨i, t, url⟩], max us.seq i⟩

/-- The error outcomes of the generate path: the three errors built in
`GenerateShortURL` (invalid characters, duplicate custom token, and an
insert rejected by the `UNIQUE`/primary-key constraint) plus the
`GenerateHandler` rejection of an empty `original_url`. -/
inductive GenError
  | invalidCustom
  | duplicateCustom
  | uniqueViolation
  | emptyURL
deriving Repr, DecidableEq

/-- `GenerateShortURL` from `urlGeneration.go`, under the allocation mutex:
the custom path validates, checks existence and inserts; the generated path
computes `id = COALESCE(MAX(id),0)+1`, encodes it and inserts. The second
component is the store after the call (unchanged on every error path). -/
def GenerateShortURL (us : Store) (originalURL customShortURL : String) :
    Except GenError String × Store :=
  if customShortURL ≠ "" then
    if ¬ isValidCustomURL customShortURL then (.error .invalidCustom, us)
    else if tokenExists us customShortURL then (.error .duplicateCustom, us)
    else (.ok customShortURL, insertCustomRow us customShortURL originalURL)
  else
    let id := maxId us + 1
    let shortURL := encodeBase62 id
    if tokenExists us shortURL || idExists us id then (.error .uniqueViolation, us)
    else (.ok shortURL, insertGeneratedRow us id shortURL originalURL)

/-- The generate endpoint (`GenerateHandler`): rejects an empty
`original_url` before calling `GenerateShortURL`. -/
def GenerateHandler (us : Store) (originalURL customShortURL : String) :
    Except GenError String × Store :=
  if originalURL = "" then (.error .emptyURL, us)
  else GenerateShortURL us originalURL customShortURL

/-- `time.Hour` in nanoseconds; the cache-population TTL is `24*time.Hour`. -/
def timeHour : Nat := 3600000000000

/-- One Redis entry: key (the token), value (the original URL) and the TTL
the `SET` was issued with. -/
structure CacheEntry where
  key : String
  val : String
  ttl : Nat
deriving Repr, DecidableEq

/-- The Redis cache contents. -/
abbrev Cache := List CacheEntry

/-- Outcome of `us.cache.Get(ctx, shortURL)`: a hit, `redis.Nil`
(key absent), or any other error. -/
inductive CacheGetResult
  | hit (v : String)
  | missNil
  | errOther
deriving Repr, DecidableEq

/-- What one `ResolveShortURL` call returned and which backends it touched:
`cacheQueried`/`storeQueried` record the `GET`/`SELECT` round-trips, and
`cachePut` records the key, value and TTL of the `SET` issued after a
store hit (`none` when no `SET` was attempted). -/
structure ResolveResult where
  url : String
  found : Bool
  cacheQueried : Bool
  storeQueried : Bool
  cachePut : Option (String × String × Nat)
deriving Repr, DecidableEq

/-- `ResolveShortURL` from `urlGeneration.go`, with the cache read outcome
made explicit: a cache hit returns immediately; `redis.Nil` and any other
cache error both fall through to the database; a database hit populates the
cache with TTL `24*time.Hour`. There is no empty-token guard here. -/
def ResolveShortURL (us : Store) (g : CacheGetResult) (shortURL : String) :
    ResolveResult :=
  match g with
  | .hit v => ⟨v, true, true, false, none⟩
  | _ =>
      match storeLookup us shortURL with
      | none => ⟨"", false, true, true, none⟩
      | some originalURL =>
          ⟨originalURL, true, true, true, some (shortURL, originalURL, 24 * timeHour)⟩

/-- Redis `GET`: the value stored under `k`, if any. -/
def cacheLookup (c : Cache) (k : String) : Option String :=
  (c.find? (fun e => e.key == k)).map (fun e => e.val)

/-- Redis `SET k v ttl`: overwrites any previous entry for `k`. -/
def cacheSet (c : Cache) (k v : String) (ttl : Nat) : Cache :=
  ⟨k, v, ttl⟩ :: c.filter (fun e => ¬ e.key == k)

/-- The state the engine acts on: the SQLite store plus the Redis cache
(the `db` and `cache` fields of `URLShortener`). -/
structure System where
  store : Store
  cache : Cache
deriving Repr, DecidableEq

/-- The cache read outcome a concrete cache produces: an injected fault
(`getFails`) is any non-`redis.Nil` error; otherwise `GET` hits or misses
according to the cache contents. -/
def cacheGetOutcome (c : Cache) (getFails : Bool) (k : String) : CacheGetResult :=
  if getFails then .errOther
  else
    match cacheLookup c k with
    | some v => .hit v
    | none => .missNil

/-- `ResolveShortURL` acting on the whole system state: returns the
`(originalURL, found)` pair and the state afterwards. A failing
cache-population `SET` (`putFails`) is logged and swallowed by the Go code,
so it only affects the cache contents, never the returned pair. -/
def systemResolve (sys : System) (getFails putFails : Bool) (shortURL : String) :
    (String × Bool) × System :=
  let r := ResolveShortURL sys.store (cacheGetOutcome sys.cache getFails shortURL) shortURL
  let cache' :=
    match r.cachePut with
    | some (k, v, ttl) => if putFails then sys.cache else cacheSet sys.cache k v ttl
    | none => sys.cache
  ((r.url, r.found), ⟨sys.store, cache'⟩)

/-- The three ways the resolve endpoint answers. -/
inductive HTTPResolve
  | badRequest
  | httpNotFound
  | redirect (location : String)
deriving Repr, DecidableEq

/-- The resolve endpoint (`ResolveHandler`): rejects an empty `shortURL`
with a 400 before calling `ResolveShortURL`. The trailing `Bool` records
whether the backends (cache/store) were contacted at all. -/
def ResolveHandler (sys : System) (getFails putFails : Bool) (shortURL : String) :
    HTTPResolve × System × Bool :=
  if shortURL = "" then (.badRequest, sys, false)
  else
    let r := systemResolve sys getFails putFails shortURL
    ((if r.1.2 then .redirect r.1.1 else .httpNotFound), r.2, true)

/-- The system states reachable from a fresh deployment by any interleaving
of generate calls that return success, resolve calls (with or without cache
faults), and spontaneous loss of cache entries (TTL expiry, Redis restart,
`FLUSHALL`). Failed generate calls leave the store untouched, so they do
not change the reachable set. -/
inductive Reachable : System → Prop
  | init : Reachable ⟨Store.empty, []⟩
  | gen {st c url custom t st'} : Reachable ⟨st, c⟩ →
      GenerateHandler st url custom = (.ok t, st') → Reachable ⟨st', c⟩
  | res {sys} (getFails putFails : Bool) (tok : String) : Reachable sys →
      Reachable (systemResolve sys getFails putFails tok).2
  | evict {st c c'} : Reachable ⟨st, c⟩ → List.Sublist c' c → Reachable ⟨st, c'⟩

/-- The `UNIQUE` constraint on `short_url` together with token
non-emptiness, as a property of the table rows. -/
def RowsInv (rows : List Entry) : Prop :=
  rows.Pairwise (fun a b => a.short_url ≠ b.short_url) ∧ ∀ r ∈ rows, r.short_url ≠ ""

/-- System invariant: the store satisfies `RowsInv` and every cache entry
mirrors what the store answers for its key. -/
def SysInv (sys : System) : Prop :=
  RowsInv sys.store.rows ∧ ∀ e ∈ sys.cache, storeLookup sys.store e.key = some e.val

/-- The store states reachable by successful no-custom-token generate calls
only. -/
inductive GeneratedOnly : Store → Prop
  | init : GeneratedOnly Store.empty
  | gen {us us' : Store} {url t : String} : GeneratedOnly us →
      GenerateShortURL us url "" = (.ok t, us') → GeneratedOnly us'

/-! ## Expiration sweeper — modelled from the spec

The repository sources under `src/` contain no expiration column, no
`expires_at` parameter and no sweeper (only a test variant references an
`expiration_time` column), so this section follows the spec text: §3's
Entry with optional `expires_at`, §4.2's `delete_expired`, §4.4's tick and
§4.3's cache-first resolution. -/

/-- Modelled from the spec: the persisted Entry of §3, with the optional
`expires_at` timestamp (absent means the entry never expires). -/
structure SweepEntry where
  token : String
  original_url : String
  expires_at : Option Nat
deriving Repr, DecidableEq

/-- Modelled from the spec: an entry with non-null `expires_at < now` is
expired. -/
def sweepExpired (now : Nat) (e : SweepEntry) : Bool :=
  match e.expires_at with
  | some t => decide (t < now)
  | none => false

/-- Modelled from the spec: `Store.delete_expired(now)` deletes all expired
entries and returns their tokens for cache eviction. -/
def delete_expired (now : Nat) (rows : List SweepEntry) :
    List SweepEntry × List String :=
  (rows.filter (fun e => !(sweepExpired now e)),
   (rows.filter (sweepExpired now)).map (fun e => e.token))

/-- Modelled from the spec: `Cache.evict(token)`. -/
def cacheEvict (c : Cache) (tok : String) : Cache :=
  c.filter (fun e => !(e.key == tok))

/-- Modelled from the spec: one Sweeper tick — `delete_expired(now)` on the
store, then `Cache.evict` on each returned token. -/
def sweeperTick (now : Nat) (rows : List SweepEntry) (c : Cache) :
    List SweepEntry × Cache :=
  let r := delete_expired now rows
  (r.1, r.2.foldl cacheEvict c)

/-- Modelled from the spec: resolution against the expiry-aware store —
cache first, store on a miss (§4.3 `resolve`). -/
def sweepResolve (rows : List SweepEntry) (c : Cache) (tok : String) :
    String × Bool :=
  match cacheLookup c tok with
  | some v => (v, true)
  | none =>
      match rows.find? (fun e => e.token == tok) with
      | none => ("", false)
      | some e => (e.original_url, true)

/-! ## Codec lemmas -/

theorem encLoop_eq_digits (n : Nat) :
    ∀ acc, encLoop n acc = ((Nat.digits 62 n).map base62Char).reverse ++ acc := by
  induction n using Nat.strong_induction_on with
  | _ n ih =>
    intro acc
    rw [encLoop]
    by_cases h : 0 < n
    · rw [dif_pos h, ih (n / 62) (Nat.div_lt_self h (by norm_num)),
        Nat.digits_def' (by norm_num : (1 : Nat) < 62) h]
      simp
    · rw [dif_neg h]
      have h0 : n = 0 := Nat.eq_zero_of_not_pos h
      subst h0
      simp

theorem encodeBase62_eq_digits (n : Nat) :
    encodeBase62 n = String.mk (((Nat.digits 62 n).map base62Char).reverse) := by
  rw [encodeBase62, encLoop_eq_digits]
  simp

theorem base62Char_inj_lt : ∀ a < 62, ∀ b < 62, base62Char a = base62Char b → a = b := by
  decide

theorem map_base62Char_inj :
    ∀ l₁ l₂ : List Nat, (∀ d ∈ l₁, d < 62) → (∀ d ∈ l₂, d < 62) →
      l₁.map base62Char = l₂.map base62Char → l₁ = l₂ := by
  intro l₁
  induction l₁ with
  | nil => intro l₂ _ _ h; cases l₂ <;> simp_all
  | cons a t ih =>
    intro l₂ h₁ h₂ h
    cases l₂ with
    | nil => simp_all
    | cons b t₂ =>
      simp only [List.map_cons, List.cons.injEq] at h
      have hab : a = b :=
        base62Char_inj_lt a (h₁ a (by simp)) b (h₂ b (by simp)) h.1
      subst hab
      rw [ih t₂ (fun d hd => h₁ d (by simp [hd])) (fun d hd => h₂ d (by simp [hd])) h.2]

theorem encodeBase62_injective : Function.Injective encodeBase62 := by
  intro m n h
  rw [encodeBase62_eq_digits, encodeBase62_eq_digits] at h
  have h₂ := congrArg String.data h
  have h₃ := List.reverse_injective h₂
  have h₄ := map_base62Char_inj _ _
    (fun d hd => Nat.digits_lt_base (by norm_num) hd)
    (fun d hd => Nat.digits_lt_base (by norm_num) hd) h₃
  exact Nat.digits_inj_iff.mp h₄

theorem encodeBase62_zero : encodeBase62 0 = "" := by
  simp [encodeBase62, encLoop]

theorem encodeBase62_eq_empty_iff (n : Nat) : encodeBase62 n = "" ↔ n = 0 := by
  constructor
  · intro h
    exact encodeBase62_injective (h.trans encodeBase62_zero.symm)
  · intro h; subst h; exact encodeBase62_zero

theorem encodeBase62_ne_empty {n : Nat} (h : 0 < n) : encodeBase62 n ≠ "" :=
  fun hc => Nat.pos_iff_ne_zero.mp h ((encodeBase62_eq_empty_iff n).mp hc)

theorem base62Char_mem_charset : ∀ d < 62, base62Char d ∈ charset.data := by decide

theorem encodeBase62_chars {n : Nat} :
    ∀ ch ∈ (encodeBase62 n).data, ch ∈ charset.data := by
  rw [encodeBase62_eq_digits]
  intro ch hch
  simp only [String.data] at hch
  rw [List.mem_reverse, List.mem_map] at hch
  obtain ⟨d, hd, rfl⟩ := hch
  exact base62Char_mem_charset d (Nat.digits_lt_base (by norm_num) hd)

theorem charset_chars_valid : ∀ ch ∈ charset.data, ch ∈ validChars.data := by decide

theorem isValidCustomURL_encodeBase62 (n : Nat) :
    isValidCustomURL (encodeBase62 n) = true := by
  rw [isValidCustomURL, List.all_eq_true]
  intro ch hch
  simp only [List.elem_eq_mem, decide_eq_true_eq]
  exact charset_chars_valid ch (encodeBase62_chars ch hch)

/-! ## Store lemmas -/

theorem tokenExists_eq_false {us : Store} {t : String} :
    tokenExists us t = false ↔ ∀ r ∈ us.rows, r.short_url ≠ t := by
  simp [tokenExists]

theorem storeLookup_eq_none {us : Store} {t : String} :
    storeLookup us t = none ↔ ∀ r ∈ us.rows, r.short_url ≠ t := by
  simp [storeLookup]

theorem storeLookup_of_tokenExists_false {us : Store} {t : String}
    (h : tokenExists us t = false) : storeLookup us t = none :=
  storeLookup_eq_none.mpr (tokenExists_eq_false.mp h)

theorem storeLookup_append_self {us : Store} {i s : Nat} {t url : String}
    (h : tokenExists us t = false) :
    storeLookup ⟨us.rows ++ [⟨i, t, url⟩], s⟩ t = some url := by
  have hnone : us.rows.find? (fun r => r.short_url == t) = none := by
    rw [List.find?_eq_none]
    intro r hr
    simp [tokenExists_eq_false.mp h r hr]
  simp [storeLookup, List.find?_append, hnone]

theorem storeLookup_append_other {us : Store} {i s : Nat} {t url k : String}
    (h : t ≠ k) :
    storeLookup ⟨us.rows ++ [⟨i, t, url⟩], s⟩ k = storeLookup us k := by
  simp only [storeLookup, List.find?_append]
  have : ([(⟨i, t, url⟩ : Entry)].find? (fun r => r.short_url == k)) = none := by
    simp [h]
  rw [this]
  cases us.rows.find? (fun r => r.short_url == k) <;> simp

theorem le_foldr_max : ∀ (l : List Entry) (r : Entry), r ∈ l →
    r.id ≤ l.foldr (fun r m => max r.id m) 0 := by
  intro l
  induction l with
  | nil => intro r h; cases h
  | cons a tl ih =>
    intro r h
    rcases List.mem_cons.mp h with h | h
    · subst h; exact le_max_left _ _
    · exact le_trans (ih r h) (le_max_right _ _)

theorem le_maxId {us : Store} {r : Entry} (h : r ∈ us.rows) : r.id ≤ maxId us :=
  le_foldr_max us.rows r h

/-! ## Inversion lemmas for the generate path -/

/-- What a successful `GenerateShortURL` did: it appended exactly one row
carrying the returned token and the request's URL, and that token was not
in the table before the call and is non-empty. -/
theorem generate_ok_inv {us us' : Store} {url c t : String}
    (h : GenerateShortURL us url c = (.ok t, us')) :
    ∃ i s, us'.rows = us.rows ++ [⟨i, t, url⟩] ∧ us'.seq = s ∧
      tokenExists us t = false ∧ t ≠ "" := by
  unfold GenerateShortURL at h
  split at h
  · -- custom-token path
    rename_i hc
    split at h
    · simp at h
    · split at h
      · simp at h
      · rename_i hex
        simp only [Prod.mk.injEq, Except.ok.injEq] at h
        obtain ⟨rfl, rfl⟩ := h
        refine ⟨nextAutoId us, nextAutoId us, rfl, rfl, ?_, hc⟩
        simpa using hex
  · -- generated-token path
    rename_i hc
    simp only [] at h
    split at h
    · simp at h
    · rename_i hex
      simp only [Prod.mk.injEq, Except.ok.injEq] at h
      obtain ⟨rfl, rfl⟩ := h
      simp only [Bool.or_eq_true, not_or] at hex
      refine ⟨maxId us + 1, max us.seq (maxId us + 1), rfl, rfl, ?_, ?_⟩
      · simpa using hex.1
      · exact encodeBase62_ne_empty (Nat.succ_pos _)

/-- A successful `GenerateHandler` call had a non-empty URL and delegated to
`GenerateShortURL`. -/
theorem generateHandler_ok_inv {us us' : Store} {url c t : String}
    (h : GenerateHandler us url c = (.ok t, us')) :
    url ≠ "" ∧ GenerateShortURL us url c = (.ok t, us') := by
  unfold GenerateHandler at h
  split at h
  · simp at h
  · rename_i hu
    exact ⟨hu, h⟩

/-! ## Invariants of reachable states -/

theorem rowsInv_append {us : Store} {i : Nat} {t url : String}
    (hinv : RowsInv us.rows) (hfresh : tokenExists us t = false) (hne : t ≠ "") :
    RowsInv (us.rows ++ [⟨i, t, url⟩]) := by
  constructor
  · rw [List.pairwise_append]
    refine ⟨hinv.1, by simp, ?_⟩
    intro a ha b hb
    rw [List.mem_singleton] at hb
    subst hb
    exact tokenExists_eq_false.mp hfresh a ha
  · intro r hr
    rcases List.mem_append.mp hr with h | h
    · exact hinv.2 r h
    · rw [List.mem_singleton] at h
      subst h
      exact hne

/-- A `SET` is issued by `ResolveShortURL` only for the requested token,
with the value the store returned, and with the fixed 24-hour TTL. -/
theorem resolve_cachePut_inv {us : Store} {g : CacheGetResult} {tok k v : String}
    {ttl : Nat} (h : (ResolveShortURL us g tok).cachePut = some (k, v, ttl)) :
    k = tok ∧ storeLookup us tok = some v ∧ ttl = 24 * timeHour := by
  unfold ResolveShortURL at h
  cases g with
  | hit w => simp at h
  | missNil =>
    cases hl : storeLookup us tok with
    | none => rw [hl] at h; simp at h
    | some u =>
      rw [hl] at h
      simp at h
      exact ⟨h.1.symm, congrArg some h.2.1, h.2.2.symm⟩
  | errOther =>
    cases hl : storeLookup us tok with
    | none => rw [hl] at h; simp at h
    | some u =>
      rw [hl] at h
      simp at h
      exact ⟨h.1.symm, congrArg some h.2.1, h.2.2.symm⟩

theorem cacheSet_mem {c : Cache} {k v : String} {ttl : Nat} {e : CacheEntry}
    (h : e ∈ cacheSet c k v ttl) : e = ⟨k, v, ttl⟩ ∨ e ∈ c := by
  rcases List.mem_cons.mp h with h | h
  · exact Or.inl h
  · exact Or.inr (List.mem_filter.mp h).1

theorem systemResolve_snd (sys : System) (gf pf : Bool) (tok : String) :
    (systemResolve sys gf pf tok).2 =
      ⟨sys.store,
        match (ResolveShortURL sys.store (cacheGetOutcome sys.cache gf tok) tok).cachePut with
        | some (k, v, ttl) => if pf then sys.cache else cacheSet sys.cache k v ttl
        | none => sys.cache⟩ := rfl

theorem systemResolve_fst (sys : System) (gf pf : Bool) (tok : String) :
    (systemResolve sys gf pf tok).1 =
      ((ResolveShortURL sys.store (cacheGetOutcome sys.cache gf tok) tok).url,
       (ResolveShortURL sys.store (cacheGetOutcome sys.cache gf tok) tok).found) := rfl

theorem sysInv_systemResolve {sys : System} (hinv : SysInv sys)
    (gf pf : Bool) (tok : String) : SysInv (systemResolve sys gf pf tok).2 := by
  rw [systemResolve_snd]
  cases hput : (ResolveShortURL sys.store (cacheGetOutcome sys.cache gf tok) tok).cachePut with
  | none => exact ⟨hinv.1, fun e he => hinv.2 e he⟩
  | some kvt =>
    obtain ⟨k, v, ttl⟩ := kvt
    obtain ⟨rfl, hv, -⟩ := resolve_cachePut_inv hput
    cases pf with
    | true => exact ⟨hinv.1, fun e he => hinv.2 e he⟩
    | false =>
      refine ⟨hinv.1, ?_⟩
      intro e he
      rcases cacheSet_mem he with rfl | hmem
      · exact hv
      · exact hinv.2 e hmem

/-- Every reachable system state satisfies the invariant: store tokens are
pairwise distinct and non-empty, and the cache only mirrors the store. -/
theorem reachable_sysInv {sys : System} (h : Reachable sys) : SysInv sys := by
  induction h with
  | init => exact ⟨⟨List.Pairwise.nil, by simp [Store.empty]⟩, by simp⟩
  | gen hr hgen ih =>
    rename_i st c url custom t st'
    obtain ⟨-, hgen'⟩ := generateHandler_ok_inv hgen
    obtain ⟨i, s, hrows, -, hfresh, hne⟩ := generate_ok_inv hgen'
    obtain ⟨rows', seq'⟩ := st'
    simp only at hrows
    subst hrows
    refine ⟨rowsInv_append ih.1 hfresh hne, ?_⟩
    intro e he
    have he' := ih.2 e he
    have hkey : t ≠ e.key := by
      intro hc
      subst hc
      rw [storeLookup_of_tokenExists_false hfresh] at he'
      exact Option.noConfusion he'
    rw [show storeLookup ⟨st.rows ++ [⟨i, t, url⟩], seq'⟩ e.key = storeLookup st e.key from
      storeLookup_append_other hkey]
    exact he'
  | res gf pf tok hr ih => exact sysInv_systemResolve ih gf pf tok
  | evict hr hsub ih => exact ⟨ih.1, fun e he => ih.2 e (hsub.subset he)⟩

theorem cacheLookup_eq_some {c : Cache} {k v : String} (h : cacheLookup c k = some v) :
    ∃ e ∈ c, e.key = k ∧ e.val = v := by
  unfold cacheLookup at h
  cases hf : c.find? (fun e => e.key == k) with
  | none => rw [hf] at h; simp at h
  | some e =>
    rw [hf] at h
    simp only [Option.map_some', Option.some.injEq] at h
    exact ⟨e, List.mem_of_find?_eq_some hf, by simpa using List.find?_some hf, h⟩

/-! ## Claim theorems -/

/-- C1: Token uniqueness is an invariant: in every system state reachable by
any sequence of successful generate operations (system-generated or custom,
interleaved with resolves and cache evictions), the tokens stored in the
durable store are pairwise distinct; moreover every successful generate call
returns a token that was not yet stored and stores it, so the N tokens
returned by N successful generate calls are pairwise distinct. -/
theorem token_uniqueness_invariant {sys : System} (h : Reachable sys) :
    sys.store.rows.Pairwise (fun a b => a.short_url ≠ b.short_url) ∧
      (∀ st' url custom t, GenerateHandler sys.store url custom = (.ok t, st') →
        tokenExists sys.store t = false ∧ tokenExists st' t = true) := by
  refine ⟨(reachable_sysInv h).1.1, ?_⟩
  intro st' url custom t hgen
  obtain ⟨-, hgen'⟩ := generateHandler_ok_inv hgen
  obtain ⟨i, s, hrows, -, hfresh, -⟩ := generate_ok_inv hgen'
  refine ⟨hfresh, ?_⟩
  rw [tokenExists, List.any_eq_true]
  exact ⟨⟨i, t, url⟩, by rw [hrows]; simp, by simp⟩

/-- C1 witness: a concrete state reached by two system-generated calls. -/
theorem token_uniqueness_invariant_witness :
    (⟨⟨[⟨1, "1", "https://a.com"⟩, ⟨2, "2", "https://b.com"⟩], 2⟩, []⟩ : System).store.rows.Pairwise
      (fun a b => a.short_url ≠ b.short_url) := by
  have h1 : GenerateHandler Store.empty "https://a.com" "" =
      (.ok "1", ⟨[⟨1, "1", "https://a.com"⟩], 1⟩) := by
    simp [GenerateHandler, GenerateShortURL, tokenExists, idExists, maxId,
      insertGeneratedRow, Store.empty, encodeBase62, encLoop, base62Char, charset]
  have h2 : GenerateHandler ⟨[⟨1, "1", "https://a.com"⟩], 1⟩ "https://b.com" "" =
      (.ok "2", ⟨[⟨1, "1", "https://a.com"⟩, ⟨2, "2", "https://b.com"⟩], 2⟩) := by
    simp [GenerateHandler, GenerateShortURL, tokenExists, idExists, maxId,
      insertGeneratedRow, encodeBase62, encLoop, base62Char, charset]
  exact (token_uniqueness_invariant
    (Reachable.gen (Reachable.gen Reachable.init h1) h2)).1

/-- C2: Round-trip: from any reachable state, if a generate call succeeds
with token `t` for `original_url`, then resolving `t` afterwards returns
`(original_url, true)` — whatever the cache does (hit is impossible, a
faulty or missing cache read falls through to the store, and a faulty
cache-population write is swallowed). -/
theorem generate_resolve_round_trip {st st' : Store} {c : Cache}
    {url custom t : String} (hr : Reachable ⟨st, c⟩)
    (hgen : GenerateHandler st url custom = (.ok t, st')) (gf pf : Bool) :
    (systemResolve ⟨st', c⟩ gf pf t).1 = (url, true) := by
  have hinv := reachable_sysInv hr
  obtain ⟨-, hgen'⟩ := generateHandler_ok_inv hgen
  obtain ⟨i, s, hrows, -, hfresh, -⟩ := generate_ok_inv hgen'
  have hcache : cacheLookup c t = none := by
    cases hcl : cacheLookup c t with
    | none => rfl
    | some v =>
      obtain ⟨e, he, hek, -⟩ := cacheLookup_eq_some hcl
      have hmirror := hinv.2 e he
      rw [hek, storeLookup_of_tokenExists_false hfresh] at hmirror
      exact Option.noConfusion hmirror
  obtain ⟨rows', seq'⟩ := st'
  subst hrows
  have hlook : storeLookup ⟨st.rows ++ [⟨i, t, url⟩], seq'⟩ t = some url :=
    storeLookup_append_self hfresh
  rw [systemResolve_fst]
  cases gf with
  | true => simp [cacheGetOutcome, ResolveShortURL, hlook]
  | false => simp [cacheGetOutcome, hcache, ResolveShortURL, hlook]

/-- C2 witness: the concrete scenario of the spec — generate on the empty
system returns `"1"`, and resolving `"1"` returns the original URL. -/
theorem generate_resolve_round_trip_witness :
    (systemResolve ⟨⟨[⟨1, "1", "https://example.com"⟩], 1⟩, []⟩ false false "1").1 =
      ("https://example.com", true) := by
  have h1 : GenerateHandler Store.empty "https://example.com" "" =
      (.ok "1", ⟨[⟨1, "1", "https://example.com"⟩], 1⟩) := by
    simp [GenerateHandler, GenerateShortURL, tokenExists, idExists, maxId,
      insertGeneratedRow, Store.empty, encodeBase62, encLoop, base62Char, charset]
  exact generate_resolve_round_trip Reachable.init h1 false false

/-- Helper: a successful no-custom-token `GenerateShortURL` returned the
Base62 encoding of `max(id)+1` and appended exactly that row. -/
theorem generate_nocustom_ok_inv {us us' : Store} {url t : String}
    (h : GenerateShortURL us url "" = (.ok t, us')) :
    t = encodeBase62 (maxId us + 1) ∧
    us' = insertGeneratedRow us (maxId us + 1) t url ∧
    tokenExists us t = false ∧ idExists us (maxId us + 1) = false := by
  unfold GenerateShortURL at h
  rw [if_neg (by simp)] at h
  simp only [] at h
  split at h
  · simp at h
  · rename_i hex
    simp only [Bool.or_eq_true, not_or, Bool.not_eq_true] at hex
    simp only [Prod.mk.injEq, Except.ok.injEq] at h
    obtain ⟨rfl, rfl⟩ := h
    exact ⟨rfl, rfl, hex.1, hex.2⟩

/-- C4: `encodeBase62` maps every id to the positional base-62
representation of the id over the 62-symbol alphabet, most-significant
symbol first; it is injective (hence collision-free on positive ids),
returns the empty string exactly for id 0, encodes 1 as `"1"`, and the
first generate on an empty store returns the Base62 encoding of 1. -/
theorem encodeBase62_spec :
    (∀ n : Nat, encodeBase62 n = String.mk (((Nat.digits 62 n).map base62Char).reverse)) ∧
    (∀ m n : Nat, encodeBase62 m = encodeBase62 n → m = n) ∧
    (∀ n : Nat, encodeBase62 n = "" ↔ n = 0) ∧
    encodeBase62 1 = "1" ∧
    (∀ url : String, url ≠ "" →
      (GenerateHandler Store.empty url "").1 = .ok (encodeBase62 1)) := by
  refine ⟨encodeBase62_eq_digits, fun m n hmn => encodeBase62_injective hmn,
    encodeBase62_eq_empty_iff, by simp [encodeBase62, encLoop, base62Char, charset], ?_⟩
  intro url hurl
  rw [GenerateHandler, if_neg hurl]
  obtain ⟨t, us', h⟩ : ∃ t us', GenerateShortURL Store.empty url "" = (.ok t, us') := by
    simp [GenerateShortURL, Store.empty, tokenExists, idExists, maxId]
  obtain ⟨rfl, -, -, -⟩ := generate_nocustom_ok_inv h
  rw [h]
  rfl

/-- C4 witness: the codec facts evaluated at concrete ids through the
theorem. -/
theorem encodeBase62_spec_witness :
    (GenerateHandler Store.empty "https://example.com" "").1 = .ok "1" := by
  have h := encodeBase62_spec.2.2.2.2 "https://example.com" (by decide)
  rw [h, encodeBase62_spec.2.2.2.1]

/-- C5: the custom-token validator accepts a string iff every character is
in the 62-symbol alphabet extended with `-` and `_`; the empty string
passes the validator vacuously but the engine treats it as "no custom token
requested": with an empty custom token the call takes the generated-token
path and can never return the invalid- or duplicate-custom-token errors. -/
theorem validate_custom_token_spec :
    (∀ s : String, isValidCustomURL s = true ↔
      ∀ ch ∈ s.data, ch ∈ charset.data ++ [Char.ofNat 45, Char.ofNat 95]) ∧
    (∀ us url, (GenerateShortURL us url "").1 = .ok (encodeBase62 (maxId us + 1)) ∨
      (GenerateShortURL us url "").1 = .error .uniqueViolation) := by
  constructor
  · intro s
    have hext : validChars.data = charset.data ++ [Char.ofNat 45, Char.ofNat 95] := by decide
    rw [isValidCustomURL, List.all_eq_true]
    constructor
    · intro h ch hch
      have := h ch hch
      simp only [List.elem_eq_mem, decide_eq_true_eq] at this
      rwa [hext] at this
    · intro h ch hch
      simp only [List.elem_eq_mem, decide_eq_true_eq]
      rw [hext]
      exact h ch hch
  · intro us url
    rw [GenerateShortURL, if_neg (by simp)]
    simp only []
    split
    · exact Or.inr rfl
    · exact Or.inl rfl

/-- C5 witness: the validator evaluated on the spec's concrete probes. -/
theorem validate_custom_token_spec_witness :
    isValidCustomURL "valid-token_1" = true ∧
    isValidCustomURL "invalid@token" = false ∧
    isValidCustomURL "" = true ∧
    (GenerateShortURL Store.empty "https://example.com" "").1 = .ok "1" := by
  refine ⟨by decide, ?_, by decide, ?_⟩
  · rw [Bool.eq_false_iff]
    intro hc
    have := (validate_custom_token_spec.1 "invalid@token").mp hc
      (Char.ofNat 64) (by decide)
    revert this
    decide
  · rcases validate_custom_token_spec.2 Store.empty "https://example.com" with h | h
    · rw [h]
      have h1 : maxId Store.empty + 1 = 1 := by decide
      rw [h1]
      have h2 : encodeBase62 1 = "1" := by
        simp [encodeBase62, encLoop, base62Char, charset]
      rw [h2]
    · rw [GenerateShortURL] at h
      revert h
      simp [Store.empty, tokenExists, idExists, maxId]

/-- C10: every system-generated token is non-empty and made only of the 62
alphabet symbols (never `-` or `_`), and hence also passes the custom-token
validator: this holds of `encodeBase62 n` for every `n ≥ 1` and of the
token returned by every successful no-custom-token generate call. -/
theorem generated_token_alphabet {n : Nat} (h : 1 ≤ n) :
    (encodeBase62 n ≠ "" ∧
      ∀ ch ∈ (encodeBase62 n).data,
        ch ∈ charset.data ∧ ch ≠ Char.ofNat 45 ∧ ch ≠ Char.ofNat 95) ∧
    isValidCustomURL (encodeBase62 n) = true ∧
    (∀ us us' url t, GenerateShortURL us url "" = (.ok t, us') →
      t ≠ "" ∧ isValidCustomURL t = true) := by
  have hchars : ∀ m : Nat, ∀ ch ∈ (encodeBase62 m).data,
      ch ∈ charset.data ∧ ch ≠ Char.ofNat 45 ∧ ch ≠ Char.ofNat 95 := by
    intro m ch hch
    have hmem := encodeBase62_chars ch hch
    have h45 : Char.ofNat 45 ∉ charset.data := by decide
    have h95 : Char.ofNat 95 ∉ charset.data := by decide
    exact ⟨hmem, fun hc => h45 (hc ▸ hmem), fun hc => h95 (hc ▸ hmem)⟩
  refine ⟨⟨encodeBase62_ne_empty h, hchars n⟩, isValidCustomURL_encodeBase62 n, ?_⟩
  intro us us' url t hgen
  obtain ⟨rfl, -, -, -⟩ := generate_nocustom_ok_inv hgen
  exact ⟨encodeBase62_ne_empty (Nat.succ_pos _), isValidCustomURL_encodeBase62 _⟩

/-- C10 witness: the properties evaluated at id 63 (token `"11"`). -/
theorem generated_token_alphabet_witness :
    encodeBase62 63 ≠ "" ∧ isValidCustomURL (encodeBase62 63) = true := by
  have h := @generated_token_alphabet 63 (by decide)
  exact ⟨h.1.1, h.2.1⟩

/-- C7: a non-empty, character-valid custom token that is already stored is
rejected with the duplicate-custom-token error and the store is returned
unchanged; the same token, when absent, is inserted and returned exactly. -/
theorem custom_token_exclusivity {us : Store} {c url : String}
    (hne : c ≠ "") (hvalid : isValidCustomURL c = true) :
    (tokenExists us c = true → GenerateShortURL us url c = (.error .duplicateCustom, us)) ∧
    (tokenExists us c = false → GenerateShortURL us url c = (.ok c, insertCustomRow us c url)) := by
  constructor
  · intro hex
    rw [GenerateShortURL, if_pos hne, if_neg (by simp [hvalid]), if_pos (by simp [hex])]
  · intro hex
    rw [GenerateShortURL, if_pos hne, if_neg (by simp [hvalid]), if_neg (by simp [hex])]

/-- C7 witness: inserting `"abc"` into an empty store succeeds; a second
insert of `"abc"` is rejected and leaves the store as it was. -/
theorem custom_token_exclusivity_witness :
    GenerateShortURL Store.empty "https://a.com" "abc" =
      (.ok "abc", ⟨[⟨1, "abc", "https://a.com"⟩], 1⟩) ∧
    GenerateShortURL ⟨[⟨1, "abc", "https://a.com"⟩], 1⟩ "https://b.com" "abc" =
      (.error .duplicateCustom, ⟨[⟨1, "abc", "https://a.com"⟩], 1⟩) := by
  constructor
  · have h := (@custom_token_exclusivity Store.empty "abc" "https://a.com"
      (by decide) (by decide)).2 (by decide)
    rw [h]
    rfl
  · exact (custom_token_exclusivity (by decide) (by decide)).1 (by decide)

/-- C6 counterexample: the claim says resolving the empty token contacts
neither the Store nor the Cache; but `ResolveShortURL` has no empty-token
guard, so on the empty system it still issues the cache `GET` and the store
`SELECT` (while indeed returning `("", false)`). -/
theorem resolve_empty_contacts_backends :
    ResolveShortURL Store.empty CacheGetResult.missNil "" =
      ⟨"", false, true, true, none⟩ := by
  simp [ResolveShortURL, storeLookup, Store.empty]

/-- C6 amended: generate with an empty `original_url` fails with `EmptyURL`
and leaves the store untouched; resolving the empty token from any
reachable state returns `("", false)` — but the engine does contact the
Cache and the Store on the way; the no-contact short-circuit exists only in
the HTTP resolve handler, which answers 400 without calling the engine. -/
theorem empty_input_rejection :
    (∀ us custom, GenerateHandler us "" custom = (.error .emptyURL, us)) ∧
    (∀ sys, Reachable sys → ∀ gf pf, (systemResolve sys gf pf "").1 = ("", false)) ∧
    (∀ sys gf pf, ResolveHandler sys gf pf "" = (.badRequest, sys, false)) := by
  refine ⟨fun us custom => by rw [GenerateHandler, if_pos rfl], ?_, fun sys gf pf => rfl⟩
  intro sys hr gf pf
  have hinv := reachable_sysInv hr
  have hstore : storeLookup sys.store "" = none :=
    storeLookup_eq_none.mpr (fun r hr' => hinv.1.2 r hr')
  have hcache : cacheLookup sys.cache "" = none := by
    cases hcl : cacheLookup sys.cache "" with
    | none => rfl
    | some v =>
      obtain ⟨e, he, hek, -⟩ := cacheLookup_eq_some hcl
      have hmirror := hinv.2 e he
      rw [hek, hstore] at hmirror
      exact Option.noConfusion hmirror
  rw [systemResolve_fst]
  cases gf with
  | true => simp [cacheGetOutcome, ResolveShortURL, hstore]
  | false => simp [cacheGetOutcome, hcache, ResolveShortURL, hstore]

/-- C6 witness: the amended statement evaluated on the empty system. -/
theorem empty_input_rejection_witness :
    GenerateHandler Store.empty "" "" = (.error .emptyURL, Store.empty) ∧
    (systemResolve ⟨Store.empty, []⟩ false false "").1 = ("", false) := by
  exact ⟨empty_input_rejection.1 Store.empty "",
    empty_input_rejection.2.1 ⟨Store.empty, []⟩ Reachable.init false false⟩

/-- C3 counterexample: the unique-violation branch of the generated-token
path is reachable. A successful custom insert of the token `"2"` (itself a
valid Base62 word) on the empty store produces a state whose next generated
id is 2 with `encodeBase62 2 = "2"`, so the subsequent no-custom generate
call fails with the token-uniqueness violation. -/
theorem generated_unique_violation_reachable :
    GenerateShortURL Store.empty "https://a.com" "2" =
      (.ok "2", ⟨[⟨1, "2", "https://a.com"⟩], 1⟩) ∧
    GenerateShortURL ⟨[⟨1, "2", "https://a.com"⟩], 1⟩ "https://b.com" "" =
      (.error .uniqueViolation, ⟨[⟨1, "2", "https://a.com"⟩], 1⟩) := by
  constructor
  · rw [GenerateShortURL, if_pos (by decide), if_neg (by decide), if_neg (by decide)]
    rfl
  · rw [GenerateShortURL, if_neg (by simp)]
    simp only []
    rw [if_pos]
    simp only [Bool.or_eq_true]
    left
    have h2 : encodeBase62 (maxId ⟨[⟨1, "2", "https://a.com"⟩], 1⟩ + 1) = "2" := by
      have : maxId ⟨[⟨1, "2", "https://a.com"⟩], 1⟩ + 1 = 2 := by decide
      rw [this]
      simp [encodeBase62, encLoop, base62Char, charset]
    rw [h2]
    decide

/-- In a generated-only store every row's token is the Base62 encoding of
its positive id. -/
theorem generatedOnly_inv {us : Store} (h : GeneratedOnly us) :
    ∀ r ∈ us.rows, 1 ≤ r.id ∧ r.short_url = encodeBase62 r.id := by
  induction h with
  | init => intro r hr; simp [Store.empty] at hr
  | gen hprev hgen ih =>
    obtain ⟨rfl, rfl, -, -⟩ := generate_nocustom_ok_inv hgen
    intro r hr
    rename_i us url
    rcases List.mem_append.mp hr with hmem | hmem
    · exact ih r hmem
    · rw [List.mem_singleton] at hmem
      subst hmem
      exact ⟨Nat.succ_le_succ (Nat.zero_le _), rfl⟩

/-- C3 amended: from any store reachable by system-generated inserts alone
(no custom tokens), the generated-token path never hits the
unique-violation branch: inserting id `max(id)+1` with token
`encodeBase62(max(id)+1)` always succeeds. With custom insertions in the
history the claim fails (see the counterexample). -/
theorem generated_path_no_unique_violation {us : Store} (h : GeneratedOnly us)
    (url : String) :
    GenerateShortURL us url "" =
      (.ok (encodeBase62 (maxId us + 1)),
        insertGeneratedRow us (maxId us + 1) (encodeBase62 (maxId us + 1)) url) := by
  have hinv := generatedOnly_inv h
  rw [GenerateShortURL, if_neg (by simp)]
  simp only []
  rw [if_neg]
  simp only [Bool.or_eq_true, not_or, Bool.not_eq_true]
  constructor
  · rw [tokenExists_eq_false]
    intro r hr hc
    obtain ⟨hpos, henc⟩ := hinv r hr
    have hid : r.id = maxId us + 1 := encodeBase62_injective (henc.symm.trans hc)
    have hle : r.id ≤ maxId us := le_maxId hr
    omega
  · rw [idExists, List.any_eq_false]
    intro r hr
    simp only [beq_iff_eq]
    have hle : r.id ≤ maxId us := le_maxId hr
    omega

/-- C3-amended witness: after one generated insert on the empty store, the
next generated insert still succeeds. -/
theorem generated_path_no_unique_violation_witness :
    GenerateShortURL ⟨[⟨1, "1", "https://a.com"⟩], 1⟩ "https://b.com" "" =
      (.ok "2", ⟨[⟨1, "1", "https://a.com"⟩, ⟨2, "2", "https://b.com"⟩], 2⟩) := by
  have h1 : GenerateShortURL Store.empty "https://a.com" "" =
      (.ok "1", ⟨[⟨1, "1", "https://a.com"⟩], 1⟩) := by
    simp [GenerateShortURL, tokenExists, idExists, maxId,
      insertGeneratedRow, Store.empty, encodeBase62, encLoop, base62Char, charset]
  have h := generated_path_no_unique_violation
    (GeneratedOnly.gen GeneratedOnly.init h1) "https://b.com"
  rw [h]
  have hm : maxId ⟨[⟨1, "1", "https://a.com"⟩], 1⟩ + 1 = 2 := by decide
  rw [hm]
  have henc : encodeBase62 2 = "2" := by
    simp [encodeBase62, encLoop, base62Char, charset]
  rw [henc]
  rfl

/-- C8: for a token present in the store, a failing (`gf`) or missing cache
read falls through to the store and resolve returns the stored URL with
`found = true`; the cache is then populated with the fixed 24-hour TTL
(when the `SET` does not fail); and a failing cache-population write never
changes the returned pair. -/
theorem cache_failure_resilience {sys : System} {tok url : String}
    (hstore : storeLookup sys.store tok = some url) :
    ∀ gf pf : Bool, gf = true ∨ cacheLookup sys.cache tok = none →
      (systemResolve sys gf pf tok).1 = (url, true) ∧
      (pf = false →
        (⟨tok, url, 24 * timeHour⟩ : CacheEntry) ∈ (systemResolve sys gf pf tok).2.cache) ∧
      (systemResolve sys gf true tok).1 = (systemResolve sys gf false tok).1 := by
  intro gf pf hg
  have hout : cacheGetOutcome sys.cache gf tok = .missNil ∨
      cacheGetOutcome sys.cache gf tok = .errOther := by
    cases gf with
    | true => exact Or.inr rfl
    | false =>
      rcases hg with hgf | hnone
      · exact Bool.noConfusion hgf
      · exact Or.inl (by simp [cacheGetOutcome, hnone])
  have hres : ResolveShortURL sys.store (cacheGetOutcome sys.cache gf tok) tok =
      ⟨url, true, true, true, some (tok, url, 24 * timeHour)⟩ := by
    rcases hout with h | h <;> rw [h] <;> simp [ResolveShortURL, hstore]
  refine ⟨?_, ?_, rfl⟩
  · rw [systemResolve_fst, hres]
  · intro hpf
    subst hpf
    rw [systemResolve_snd]
    rw [hres]
    exact List.mem_cons_self _ _

/-- C8 witness: a faulty cache read on a one-entry store still resolves and
repopulates the cache with the 24-hour TTL. -/
theorem cache_failure_resilience_witness :
    (systemResolve ⟨⟨[⟨1, "1", "https://a.com"⟩], 1⟩, []⟩ true false "1").1 =
      ("https://a.com", true) ∧
    (⟨"1", "https://a.com", 24 * timeHour⟩ : CacheEntry) ∈
      (systemResolve ⟨⟨[⟨1, "1", "https://a.com"⟩], 1⟩, []⟩ true false "1").2.cache := by
  have h := @cache_failure_resilience ⟨⟨[⟨1, "1", "https://a.com"⟩], 1⟩, []⟩ "1"
    "https://a.com" (by decide) true false (Or.inl rfl)
  exact ⟨h.1, h.2.1 rfl⟩

theorem foldl_cacheEvict_subset :
    ∀ (ts : List String) (c : Cache) (e : CacheEntry),
      e ∈ ts.foldl cacheEvict c → e ∈ c := by
  intro ts
  induction ts with
  | nil => intro c e he; exact he
  | cons t ts ih =>
    intro c e he
    exact (List.mem_filter.mp (ih (cacheEvict c t) e he)).1

theorem foldl_cacheEvict_evicted :
    ∀ (ts : List String) (c : Cache) (tok : String), tok ∈ ts →
      ∀ e ∈ ts.foldl cacheEvict c, e.key ≠ tok := by
  intro ts
  induction ts with
  | nil => intro c tok htok; cases htok
  | cons t ts ih =>
    intro c tok htok e he
    rcases List.mem_cons.mp htok with rfl | hmem
    · have he' := foldl_cacheEvict_subset ts (cacheEvict c tok) e he
      have hfe := (List.mem_filter.mp he').2
      simpa using hfe
    · exact ih (cacheEvict c t) tok hmem e he

/-- C9: an entry whose `expires_at` lies in the past becomes unresolvable
after one Sweeper tick — the tick deletes it from the store and evicts its
token from the cache, so a subsequent resolve returns `("", false)` even if
the token was cached beforehand. (`hall` plays the token-uniqueness
invariant: every row carrying this token is expired.) -/
theorem expired_entry_unresolvable {rows : List SweepEntry} {c : Cache}
    {tok : String} {t0 now : Nat}
    (hmem : ∃ e ∈ rows, e.token = tok ∧ e.expires_at = some t0)
    (hpast : t0 < now)
    (hall : ∀ e ∈ rows, e.token = tok → sweepExpired now e = true) :
    sweepResolve (sweeperTick now rows c).1 (sweeperTick now rows c).2 tok =
      ("", false) := by
  obtain ⟨e0, he0, hetok, hexp⟩ := hmem
  have he0exp : sweepExpired now e0 = true := by
    simp [sweepExpired, hexp, hpast]
  have htokmem : tok ∈ (rows.filter (sweepExpired now)).map (fun e => e.token) :=
    List.mem_map.mpr ⟨e0, List.mem_filter.mpr ⟨he0, he0exp⟩, hetok⟩
  have hc : cacheLookup
      (((rows.filter (sweepExpired now)).map (fun e => e.token)).foldl cacheEvict c)
      tok = none := by
    cases hcl : cacheLookup
        (((rows.filter (sweepExpired now)).map (fun e => e.token)).foldl cacheEvict c)
        tok with
    | none => rfl
    | some v =>
      obtain ⟨e, he, hek, -⟩ := cacheLookup_eq_some hcl
      exact absurd hek (foldl_cacheEvict_evicted _ c tok htokmem e he)
  have hs : (rows.filter (fun e => !(sweepExpired now e))).find?
      (fun e => e.token == tok) = none := by
    rw [List.find?_eq_none]
    intro e he
    have hm := List.mem_filter.mp he
    simp only [beq_iff_eq]
    intro hc'
    have := hall e hm.1 hc'
    rw [this] at hm
    simpa using hm.2
  rw [sweeperTick, delete_expired]
  simp only [sweepResolve, hc, hs]

/-- C9 witness: a concrete expired, cached entry is gone after one tick. -/
theorem expired_entry_unresolvable_witness :
    sweepResolve
      (sweeperTick 10 [⟨"abc", "https://a.com", some 5⟩]
        [⟨"abc", "https://a.com", 24 * timeHour⟩]).1
      (sweeperTick 10 [⟨"abc", "https://a.com", some 5⟩]
        [⟨"abc", "https://a.com", 24 * timeHour⟩]).2
      "abc" = ("", false) := by
  exact expired_entry_unresolvable
    ⟨⟨"abc", "https://a.com", some 5⟩, by decide, rfl, rfl⟩
    (by decide) (by decide)

end Shortify
